import Mathlib

/-!
Verification of the beaver-rag chunking engine and retrieval ranking pipeline.

Texts are modelled as `List Char`; JavaScript numbers used as similarity
scores are modelled as `ℚ` (the constant `0.8` becomes `4/5`); JavaScript
truthiness of the optional `metadata.originalContent` string is modelled by
using `List Char` with `[]` standing for "absent or empty" (both falsy).
General recursion in the source (`splitText`, the window loop, `split`) is
embedded with an explicit fuel argument; the fuel supplied at each top-level
entry point (`length + 1`) dominates the recursion depth of the source, so
the fuel-exhaustion branches are unreachable for the values the source can
produce.
-/

/-- Convert a string literal to the `List Char` text representation. -/
def str (s : String) : List Char := s.toList

/-- A produced chunk with its metadata (`src/chunking/base.ts`, `Chunk`). -/
structure Chunk where
  content : List Char
  chunkIndex : Nat
  totalChunks : Nat
  startChar : Option Nat
  endChar : Option Nat
deriving DecidableEq, Repr

/-- The helper `ChunkingStrategy.createChunk` (`src/chunking/base.ts`). -/
def createChunk (content : List Char) (index total : Nat)
    (startChar endChar : Option Nat) : Chunk :=
  { content := content, chunkIndex := index, totalChunks := total,
    startChar := startChar, endChar := endChar }

/-- JS `Array.prototype.map` with the index argument, as used by both
chunkers to attach metadata. -/
def mapIdxFrom (f : Nat → α → β) : Nat → List α → List β
  | _, [] => []
  | i, a :: as => f i a :: mapIdxFrom f (i + 1) as

/-- Test whether `sep` begins `text`, written out over `List Char`. -/
def startsWithSeq : List Char → List Char → Bool
  | [], _ => true
  | _ :: _, [] => false
  | a :: as, b :: bs => a == b && startsWithSeq as bs

/-- JS `text.includes(sep)`. -/
def containsSeq (sep : List Char) : List Char → Bool
  | [] => startsWithSeq sep []
  | c :: rest => startsWithSeq sep (c :: rest) || containsSeq sep rest

/-- JS `text.split(sep)` for a non-empty `sep` (fuelled; each step consumes
at least one character of `text`). -/
def splitOnSeqF : Nat → List Char → List Char → List (List Char)
  | 0, _, text => [text]
  | fuel + 1, sep, text =>
    match text with
    | [] => [[]]
    | c :: rest =>
      if startsWithSeq sep (c :: rest) ∧ sep ≠ [] then
        [] :: splitOnSeqF fuel sep ((c :: rest).drop sep.length)
      else
        match splitOnSeqF fuel sep rest with
        | [] => [[c]]
        | p :: ps => (c :: p) :: ps

/-- JS `text.split(sep)`. -/
def splitOnSeq (sep text : List Char) : List (List Char) :=
  splitOnSeqF (text.length + 1) sep text

/-- Re-append the separator to every split part except the last
(`i < parts.length - 1 ? part + separator : part` in `splitText`). -/
def withSeps (sep : List Char) : List (List Char) → List (List Char)
  | [] => []
  | [p] => [p]
  | p :: q :: rest => (p ++ sep) :: withSeps sep (q :: rest)

/-- The `for (const separator of this.separators)` scan in
`RecursiveChunking.splitText`: `none` means the loop reached the empty
separator or ran off the end, so the caller falls back to character slicing. -/
def chooseSeparator : List (List Char) → List Char → Option (List Char)
  | [], _ => none
  | sep :: rest, text =>
    if sep = [] then none
    else if containsSeq sep text then some sep
    else chooseSeparator rest text

/-- The loop of `RecursiveChunking.splitBySize` (fuelled character slicing). -/
def splitBySizeF (size : Nat) : Nat → List Char → List (List Char)
  | _, [] => []
  | 0, _ => []
  | fuel + 1, text => text.take size :: splitBySizeF size fuel (text.drop size)

/-- Source method `RecursiveChunking.splitBySize`. -/
def RecursiveChunking.splitBySize (size : Nat) (text : List Char) : List (List Char) :=
  splitBySizeF size text.length text

/-- The inner `for (let i = 0; ...)` loop of `RecursiveChunking.splitText`,
walking the separator-delimited parts with the accumulated `splits` and the
running `currentChunk`; `recurse` is the recursive `splitText` call made when
an oversized part is met while the running segment is non-empty. -/
def splitLoop (recurse : List Char → List (List Char)) (size : Nat) :
    List (List Char) → List (List Char) → List Char → List (List Char)
  | [], splits, cur => if cur.length > 0 then splits ++ [cur] else splits
  | p :: rest, splits, cur =>
    if cur.length = 0 then
      splitLoop recurse size rest splits p
    else if cur.length + p.length ≤ size then
      splitLoop recurse size rest splits (cur ++ p)
    else
      let splits1 := if cur.length > 0 then splits ++ [cur] else splits
      if p.length > size then
        splitLoop recurse size rest (splits1 ++ recurse p) []
      else
        splitLoop recurse size rest splits1 p

/-- Source method `RecursiveChunking.splitText`, fuelled: recursive calls are made on
strictly shorter texts, so fuel `text.length + 1` is never exhausted. -/
def splitTextF (seps : List (List Char)) : Nat → Nat → List Char → List (List Char)
  | 0, _, text => [text]
  | fuel + 1, size, text =>
    if text.length ≤ size then [text]
    else
      match chooseSeparator seps text with
      | none => RecursiveChunking.splitBySize size text
      | some sep =>
        splitLoop (splitTextF seps fuel size) size
          (withSeps sep (splitOnSeq sep text)) [] []

/-- Source method `RecursiveChunking.splitText`. -/
def RecursiveChunking.splitText (seps : List (List Char)) (size : Nat)
    (text : List Char) : List (List Char) :=
  splitTextF seps (text.length + 1) size text

/-- The loop of `RecursiveChunking.mergeChunks` (only entered with
`overlap > 0`): accumulate splits into `cur`, emitting and seeding with the
last `overlap` characters when the next split would overflow `size`. -/
def mergeLoop (size overlap : Nat) : List (List Char) → List Char → List (List Char)
  | [], cur => if cur.length > 0 then [cur] else []
  | s :: rest, cur =>
    if cur.length = 0 then mergeLoop size overlap rest s
    else if cur.length + s.length ≤ size then mergeLoop size overlap rest (cur ++ s)
    else cur :: mergeLoop size overlap rest (cur.drop (cur.length - overlap) ++ s)

/-- Source method `RecursiveChunking.mergeChunks`. -/
def mergeChunks (size overlap : Nat) (splits : List (List Char)) : List (List Char) :=
  if overlap = 0 then splits else mergeLoop size overlap splits []

/-- The constant `DEFAULT_SEPARATORS` (`src/chunking/recursive.ts`). -/
def DEFAULT_SEPARATORS : List (List Char) :=
  [str "\n\n", str "\n", str ". ", str "? ", str "! ", str "; ", str ", ",
   str " ", []]

/-- Source method `RecursiveChunking.chunk` over the effective (validated) configuration. -/
def RecursiveChunking.chunk (seps : List (List Char)) (size overlap : Nat)
    (text : List Char) : List Chunk :=
  if text.length = 0 then []
  else
    let splits := RecursiveChunking.splitText seps size text
    let chunks := mergeChunks size overlap splits
    mapIdxFrom (fun i c => createChunk c i chunks.length none none) 0 chunks

/-- The `while (startPos < text.length)` loop of `FixedSizeChunking.chunk`
(fuelled; every iteration advances `startPos` by `step ≥ 1`). -/
def windowLoop (size step : Nat) (text : List Char) : Nat → Nat → List (List Char)
  | 0, _ => []
  | fuel + 1, startPos =>
    if startPos < text.length then
      let endPos := min (startPos + size) text.length
      ((text.drop startPos).take (endPos - startPos)) ::
        windowLoop size step text fuel (startPos + step)
    else []

/-- The list `chunkContents` accumulated by `FixedSizeChunking.chunk`. -/
def FixedSizeChunking.chunkContents (size overlap : Nat) (text : List Char) :
    List (List Char) :=
  windowLoop size (size - overlap) text text.length 0

/-- Source method `FixedSizeChunking.chunk` over the effective (validated) configuration. -/
def FixedSizeChunking.chunk (size overlap : Nat) (text : List Char) : List Chunk :=
  if text.length = 0 then []
  else
    let step := size - overlap
    let contents := FixedSizeChunking.chunkContents size overlap text
    mapIdxFrom
      (fun index content =>
        let startChar := index * step
        let endChar := min (startChar + content.length) text.length
        createChunk content index contents.length (some startChar) (some endChar))
      0 contents

/-- Source method `ChunkingStrategy.chunkBatch` (`src/chunking/base.ts`), parametric in the
strategy's `chunk`. -/
def ChunkingStrategy.chunkBatch (chunk : List Char → List Chunk)
    (texts : List (List Char)) : List (List Chunk) :=
  texts.map chunk

/-- The raw constructor options (`ChunkOptions` in `src/chunking/base.ts`);
JS numbers, so overlap may be negative before validation. -/
structure ChunkOptionsJS where
  chunkSize : Int
  chunkOverlap : Int
  separators : Option (List (List Char)) := none
deriving DecidableEq

/-- A validated recursive chunker: the data an instance of
`RecursiveChunking` carries after its constructor succeeds. -/
structure RecursiveChunkerInst where
  separators : List (List Char)
  chunkSize : Nat
  chunkOverlap : Nat
deriving DecidableEq

/-- A validated fixed-size chunker. -/
structure FixedChunkerInst where
  chunkSize : Nat
  chunkOverlap : Nat
deriving DecidableEq

/-- The `RecursiveChunking` constructor (`src/chunking/recursive.ts`):
the three guards, then `options.separators || DEFAULT_SEPARATORS`. -/
def mkRecursiveChunking (o : ChunkOptionsJS) : Except String RecursiveChunkerInst :=
  if o.chunkSize ≤ 0 then .error "Chunk size must be greater than 0"
  else if o.chunkOverlap < 0 then .error "Chunk overlap cannot be negative"
  else if o.chunkSize ≤ o.chunkOverlap then
    .error "Chunk overlap must be less than chunk size"
  else
    .ok { separators := o.separators.getD DEFAULT_SEPARATORS,
          chunkSize := o.chunkSize.toNat, chunkOverlap := o.chunkOverlap.toNat }

/-- The `FixedSizeChunking` constructor (`src/chunking/fixed.ts`). -/
def mkFixedSizeChunking (o : ChunkOptionsJS) : Except String FixedChunkerInst :=
  if o.chunkSize ≤ 0 then .error "Chunk size must be greater than 0"
  else if o.chunkOverlap < 0 then .error "Chunk overlap cannot be negative"
  else if o.chunkSize ≤ o.chunkOverlap then
    .error "Chunk overlap must be less than chunk size"
  else
    .ok { chunkSize := o.chunkSize.toNat, chunkOverlap := o.chunkOverlap.toNat }

/-- A raw search candidate as consumed by `RAGClient.search`
(`result.similarity` and `result.document.metadata.originalContent`); the
document back-reference key is `[]` exactly when `originalContent` is absent
or empty (both falsy in the source's `!originalContent` test). -/
structure SearchResult where
  similarity : ℚ
  docKey : List Char
deriving DecidableEq, Repr

/-- The effective `searchOptions` of `RAGClient.search` after the defaults of
lines 212-218 have been applied; `maxChunksPerDocument = 0` is the falsy
"disabled" value. -/
structure SearchOptions where
  limit : Nat
  minSimilarity : ℚ
  maxChunksPerDocument : Nat
  useAdaptiveThreshold : Bool
deriving DecidableEq, Repr

/-- The caller-supplied `SearchOptions` before defaulting. -/
structure SearchOptionsInput where
  limit : Option Nat := none
  minSimilarity : Option ℚ := none
  maxChunksPerDocument : Option Nat := none
  useAdaptiveThreshold : Option Bool := none

/-- The `??`-defaulting of `RAGClient.search` lines 212-218. -/
def applyDefaults (o : SearchOptionsInput) : SearchOptions :=
  { limit := o.limit.getD 5,
    minSimilarity := o.minSimilarity.getD (1/2),
    maxChunksPerDocument := o.maxChunksPerDocument.getD 2,
    useAdaptiveThreshold := o.useAdaptiveThreshold.getD false }

/-- The `initialLimit` computation (`RAGClient.search` lines 221-223): triple the limit when
the diversity cap is truthy. -/
def initialLimit (opts : SearchOptions) : Nat :=
  if opts.maxChunksPerDocument ≠ 0 then opts.limit * 3 else opts.limit

/-- The adaptive-threshold stage (`RAGClient.search` lines 232-240):
`topScore` is `allResults[0].similarity`, and the filter keeps candidates
with `similarity >= max(topScore * 0.8, minSimilarity)`. -/
def adaptiveStage (opts : SearchOptions) : List SearchResult → List SearchResult
  | [] => []
  | r :: rs =>
    if opts.useAdaptiveThreshold then
      let topScore := r.similarity
      let adaptiveThreshold := max (topScore * (4/5)) opts.minSimilarity
      (r :: rs).filter (fun x => adaptiveThreshold ≤ x.similarity)
    else r :: rs

/-- The stateful `filter` of the diversity-capping stage (`RAGClient.search`
lines 244-255), with the `documentChunkCounts` map as an association list
(later entries shadow earlier ones, like `Map.set`). -/
def capGo (cap : Nat) : List (List Char × Nat) → List SearchResult → List SearchResult
  | _, [] => []
  | counts, r :: rs =>
    if r.docKey = [] then r :: capGo cap counts rs
    else
      let c := (counts.lookup r.docKey).getD 0
      if c < cap then r :: capGo cap ((r.docKey, c + 1) :: counts) rs
      else capGo cap counts rs

/-- The diversity-capping pass over the filtered results. -/
def capByDocument (cap : Nat) (rs : List SearchResult) : List SearchResult :=
  capGo cap [] rs

/-- The guarded diversity stage (`if (searchOptions.maxChunksPerDocument)`). -/
def diversityStage (opts : SearchOptions) (rs : List SearchResult) : List SearchResult :=
  if opts.maxChunksPerDocument ≠ 0 then capByDocument opts.maxChunksPerDocument rs
  else rs

/-- The pure post-fetch pipeline of `RAGClient.search` (lines 231-259):
adaptive threshold, diversity cap, then `slice(0, limit)`. -/
def searchPipeline (opts : SearchOptions) (allResults : List SearchResult) :
    List SearchResult :=
  let filtered1 := adaptiveStage opts allResults
  let filtered2 := diversityStage opts filtered1
  filtered2.take opts.limit

example : RecursiveChunking.splitText DEFAULT_SEPARATORS 5 (str "abcdefgh x")
    = [str "abcdefgh ", str "x"] := by decide

example : (FixedSizeChunking.chunk 10 2 (str "0123456789012345")).map Chunk.content
    = [str "0123456789", str "89012345"] := by decide

example :
    adaptiveStage ⟨5, 1/2, 2, true⟩
      [⟨1/2, []⟩, ⟨9/10, []⟩] = [⟨1/2, []⟩, ⟨9/10, []⟩] := by
  norm_num [adaptiveStage, List.filter, max_def]

example :
    searchPipeline ⟨5, 1/2, 2, true⟩
      [⟨9/10, str "d"⟩, ⟨3/4, str "d"⟩, ⟨7/10, str "d"⟩, ⟨1/2, str "d"⟩]
      = [⟨9/10, str "d"⟩, ⟨3/4, str "d"⟩] := by
  norm_num [searchPipeline, adaptiveStage, diversityStage, capByDocument, capGo,
    List.filter, max_def, str, List.lookup]

/-! Helper lemmas. -/

theorem adaptiveStage_sublist (opts : SearchOptions) (rs : List SearchResult) :
    (adaptiveStage opts rs).Sublist rs := by
  cases rs with
  | nil => simp [adaptiveStage]
  | cons r rs =>
    simp only [adaptiveStage]
    split
    · exact List.filter_sublist _
    · exact List.Sublist.refl _

theorem capGo_sublist (cap : Nat) (rs : List SearchResult) :
    ∀ counts, (capGo cap counts rs).Sublist rs := by
  induction rs with
  | nil => intro counts; simp [capGo]
  | cons r rs ih =>
    intro counts
    simp only [capGo]
    split
    · exact (ih counts).cons₂ r
    · split
      · exact (ih _).cons₂ r
      · exact (ih counts).cons r

theorem diversityStage_sublist (opts : SearchOptions) (rs : List SearchResult) :
    (diversityStage opts rs).Sublist rs := by
  unfold diversityStage capByDocument
  split
  · exact capGo_sublist _ _ _
  · exact List.Sublist.refl _

/-- C5: for every raw candidate list and every pipeline configuration, the
pipeline's final result is a subsequence of the raw candidate list (candidates
are only dropped, never reordered, duplicated or modified), its length is at
most the requested limit, and it is exactly the first `limit` surviving
candidates in their original order. -/
theorem searchPipeline_subsequence (opts : SearchOptions) (rs : List SearchResult) :
    (searchPipeline opts rs).Sublist rs
    ∧ (searchPipeline opts rs).length ≤ opts.limit
    ∧ searchPipeline opts rs
        = (diversityStage opts (adaptiveStage opts rs)).take opts.limit := by
  refine ⟨?_, ?_, rfl⟩
  · exact ((List.take_sublist _ _).trans
      (diversityStage_sublist opts _)).trans (adaptiveStage_sublist opts rs)
  · simp [searchPipeline, List.length_take]

/-- C6: constructing either chunker fails with a ChunkingError exactly when
`size <= 0`, `overlap < 0`, or `overlap >= size`; for options satisfying the
bounds, construction succeeds (and the chunk functions of this model are
total, so a successfully constructed chunker cannot fail at runtime for
these reasons). -/
theorem chunker_construction_validation (o o' : ChunkOptionsJS) :
    ((mkRecursiveChunking o).isOk
        ↔ 0 < o.chunkSize ∧ 0 ≤ o.chunkOverlap ∧ o.chunkOverlap < o.chunkSize)
    ∧ ((mkFixedSizeChunking o').isOk
        ↔ 0 < o'.chunkSize ∧ 0 ≤ o'.chunkOverlap ∧ o'.chunkOverlap < o'.chunkSize) := by
  constructor
  · unfold mkRecursiveChunking
    split_ifs with h1 h2 h3 <;> simp [Except.isOk, Except.toBool] <;> omega
  · unfold mkFixedSizeChunking
    split_ifs with h1 h2 h3 <;> simp [Except.isOk, Except.toBool] <;> omega

/-- C7: chunking the empty text returns the empty sequence for both
strategies, for every configuration (and both chunk functions are total, so
no valid input can make them fail). -/
theorem chunk_empty_input (seps : List (List Char)) (size overlap size2 overlap2 : Nat) :
    RecursiveChunking.chunk seps size overlap [] = []
    ∧ FixedSizeChunking.chunk size2 overlap2 [] = [] :=
  ⟨rfl, rfl⟩

/-- C8: the limit passed to the VectorStore is `requestedLimit * 3` exactly
when the diversity cap is set and positive, and `requestedLimit` otherwise. -/
theorem initialLimit_spec (opts : SearchOptions) :
    initialLimit opts
      = if 0 < opts.maxChunksPerDocument then opts.limit * 3 else opts.limit := by
  rcases Nat.eq_zero_or_pos opts.maxChunksPerDocument with h | h
  · simp [initialLimit, h]
  · simp [initialLimit, h, Nat.pos_iff_ne_zero.mp h]

/-- C10: for both strategies, `chunkBatch` is the element-wise map of `chunk`
over the input texts: the output has one chunk-sequence per text and its
`i`-th entry is `chunk` of the `i`-th text. -/
theorem chunkBatch_elementwise (seps : List (List Char))
    (size overlap size2 overlap2 : Nat) (texts : List (List Char)) (i : Nat) :
    (ChunkingStrategy.chunkBatch (RecursiveChunking.chunk seps size overlap) texts).get? i
      = (texts.get? i).map (RecursiveChunking.chunk seps size overlap)
    ∧ (ChunkingStrategy.chunkBatch (FixedSizeChunking.chunk size2 overlap2) texts).get? i
      = (texts.get? i).map (FixedSizeChunking.chunk size2 overlap2)
    ∧ (ChunkingStrategy.chunkBatch (RecursiveChunking.chunk seps size overlap) texts).length
      = texts.length := by
  refine ⟨?_, ?_, ?_⟩ <;> simp [ChunkingStrategy.chunkBatch, List.getElem?_map]


theorem capGo_cons_keyless (cap : Nat) (counts : List (List Char × Nat))
    (r : SearchResult) (rs : List SearchResult) (h : r.docKey = []) :
    capGo cap counts (r :: rs) = r :: capGo cap counts rs := by
  simp [capGo, h]

theorem capGo_cons_kept (cap : Nat) (counts : List (List Char × Nat))
    (r : SearchResult) (rs : List SearchResult) (h : r.docKey ≠ [])
    (hlt : ((counts.lookup r.docKey).getD 0) < cap) :
    capGo cap counts (r :: rs)
      = r :: capGo cap
          ((r.docKey, ((counts.lookup r.docKey).getD 0) + 1) :: counts) rs := by
  simp [capGo, h, hlt]

theorem capGo_cons_dropped (cap : Nat) (counts : List (List Char × Nat))
    (r : SearchResult) (rs : List SearchResult) (h : r.docKey ≠ [])
    (hlt : ¬ ((counts.lookup r.docKey).getD 0) < cap) :
    capGo cap counts (r :: rs) = capGo cap counts rs := by
  simp [capGo, h, hlt]

theorem capGo_filter_key (cap : Nat) (k : List Char) (hk : k ≠ []) :
    ∀ (rs : List SearchResult) (counts : List (List Char × Nat)),
      (capGo cap counts rs).filter (fun r => r.docKey == k)
        = (rs.filter (fun r => r.docKey == k)).take
            (cap - ((counts.lookup k).getD 0)) := by
  intro rs
  induction rs with
  | nil => intro counts; simp [capGo]
  | cons r rs ih =>
    intro counts
    by_cases hempty : r.docKey = []
    · have hne : (r.docKey == k) = false := by
        rw [hempty]
        exact beq_eq_false_iff_ne.mpr (Ne.symm hk)
      rw [capGo_cons_keyless cap counts r rs hempty,
        List.filter_cons, List.filter_cons, hne]
      simp only [Bool.false_eq_true, if_false]
      exact ih counts
    · by_cases heq : r.docKey = k
      · subst heq
        have hyes : (r.docKey == r.docKey) = true := by simp
        by_cases hlt : ((counts.lookup r.docKey).getD 0) < cap
        · rw [capGo_cons_kept cap counts r rs hempty hlt,
            List.filter_cons, List.filter_cons, hyes]
          simp only [if_true]
          rw [ih]
          have hl : ((((r.docKey, ((counts.lookup r.docKey).getD 0) + 1) ::
              counts).lookup r.docKey).getD 0)
              = ((counts.lookup r.docKey).getD 0) + 1 := by
            simp [List.lookup]
          rw [hl,
            show cap - ((counts.lookup r.docKey).getD 0)
              = (cap - (((counts.lookup r.docKey).getD 0) + 1)) + 1 from by omega,
            List.take_succ_cons]
        · rw [capGo_cons_dropped cap counts r rs hempty hlt,
            List.filter_cons, hyes]
          simp only [if_true]
          rw [ih,
            show cap - ((counts.lookup r.docKey).getD 0) = 0 from by omega,
            List.take_zero, List.take_zero]
      · have hne : (r.docKey == k) = false := beq_eq_false_iff_ne.mpr heq
        have hkk : (k == r.docKey) = false :=
          beq_eq_false_iff_ne.mpr (Ne.symm heq)
        by_cases hlt : ((counts.lookup r.docKey).getD 0) < cap
        · rw [capGo_cons_kept cap counts r rs hempty hlt,
            List.filter_cons, List.filter_cons, hne]
          simp only [Bool.false_eq_true, if_false]
          rw [ih]
          have hl : ((((r.docKey, ((counts.lookup r.docKey).getD 0) + 1) ::
              counts).lookup k).getD 0) = ((counts.lookup k).getD 0) := by
            simp [List.lookup, hkk]
          rw [hl]
        · rw [capGo_cons_dropped cap counts r rs hempty hlt,
            List.filter_cons, hne]
          simp only [Bool.false_eq_true, if_false]
          exact ih counts

theorem capGo_filter_keyless (cap : Nat) :
    ∀ (rs : List SearchResult) (counts : List (List Char × Nat)),
      (capGo cap counts rs).filter (fun r => r.docKey == ([] : List Char))
        = rs.filter (fun r => r.docKey == ([] : List Char)) := by
  intro rs
  induction rs with
  | nil => intro counts; simp [capGo]
  | cons r rs ih =>
    intro counts
    by_cases hempty : r.docKey = []
    · have hyes : (r.docKey == ([] : List Char)) = true := by simp [hempty]
      rw [capGo_cons_keyless cap counts r rs hempty,
        List.filter_cons, List.filter_cons, hyes]
      simp only [if_true]
      rw [ih]
    · have hne : (r.docKey == ([] : List Char)) = false :=
        beq_eq_false_iff_ne.mpr hempty
      by_cases hlt : ((counts.lookup r.docKey).getD 0) < cap
      · rw [capGo_cons_kept cap counts r rs hempty hlt,
          List.filter_cons, List.filter_cons, hne]
        simp only [Bool.false_eq_true, if_false]
        rw [ih]
      · rw [capGo_cons_dropped cap counts r rs hempty hlt,
          List.filter_cons, hne]
        simp only [Bool.false_eq_true, if_false]
        exact ih counts

/-- Five raw candidates all sharing the document key `"d"` (Scenario C). -/
def scenarioC : List SearchResult :=
  [⟨9/10, str "d"⟩, ⟨4/5, str "d"⟩, ⟨7/10, str "d"⟩, ⟨3/5, str "d"⟩,
   ⟨1/2, str "d"⟩]

/-- C4: for every positive cap and every document key `k`, the
diversity-capping stage keeps exactly the first `cap` candidates carrying
`k`, in their original order (so at most `cap` survive), while every
candidate without a document key passes through unchanged. -/
theorem capByDocument_cap_spec (cap : Nat) (rs : List SearchResult)
    (k : List Char) (hk : k ≠ []) (hcap : 0 < cap) :
    (capByDocument cap rs).filter (fun r => r.docKey == k)
        = (rs.filter (fun r => r.docKey == k)).take cap
    ∧ ((capByDocument cap rs).filter (fun r => r.docKey == k)).length ≤ cap
    ∧ (capByDocument cap rs).filter (fun r => r.docKey == ([] : List Char))
        = rs.filter (fun r => r.docKey == ([] : List Char)) := by
  have h1 := capGo_filter_key cap k hk rs []
  simp only [List.lookup, Option.getD, Nat.sub_zero] at h1
  refine ⟨h1, ?_, capGo_filter_keyless cap rs []⟩
  unfold capByDocument
  rw [h1]
  simp [List.length_take]

/-- Witness for C4 at Scenario C: five candidates all sharing the document
key `"d"` with cap 2 keep exactly the first two, in order. -/
theorem capByDocument_cap_spec_witness :
    (str "d" ≠ ([] : List Char)) ∧ 0 < 2
    ∧ ((capByDocument 2 scenarioC).filter (fun r => r.docKey == str "d")
          = (scenarioC.filter (fun r => r.docKey == str "d")).take 2
        ∧ ((capByDocument 2 scenarioC).filter
            (fun r => r.docKey == str "d")).length ≤ 2
        ∧ (capByDocument 2 scenarioC).filter
            (fun r => r.docKey == ([] : List Char))
          = scenarioC.filter (fun r => r.docKey == ([] : List Char))) :=
  ⟨by decide, by decide,
    capByDocument_cap_spec 2 scenarioC (str "d") (by decide) (by decide)⟩

/-- Counterexample to C1: with raw candidates `[0.5, 0.9]` (not sorted
descending), `minSimilarity = 0.5` and the adaptive threshold enabled, the
code's `topScore` is the first element's `0.5`, so both candidates survive;
yet the maximum similarity among raw candidates is `0.9`, and the surviving
candidate `0.5` is strictly below `max(0.9 * 0.8, 0.5) = 0.72`, contradicting
the claimed bound. -/
theorem adaptiveStage_topScore_counterexample :
    adaptiveStage ⟨5, 1/2, 2, true⟩ [⟨1/2, []⟩, ⟨9/10, []⟩]
        = [⟨1/2, []⟩, ⟨9/10, []⟩]
    ∧ max ((1 : ℚ)/2) (9/10) = 9/10
    ∧ ((1 : ℚ)/2 < max ((9/10) * (4/5)) (1/2)) := by
  refine ⟨?_, ?_, ?_⟩
  · norm_num [adaptiveStage, List.filter, max_def]
  · norm_num [max_def]
  · rw [max_eq_left] <;> norm_num

/-- C1 as amended: the adaptive filter's `topScore` is the similarity of the
first raw candidate (the maximum only under the VectorStore's
sorted-descending contract), and every candidate surviving the filter has
`similarity >= max(firstSimilarity * 0.8, minSimilarity)`; conversely every
raw candidate meeting that threshold survives. -/
theorem adaptiveStage_first_threshold (opts : SearchOptions) (r : SearchResult)
    (rs : List SearchResult) (h : opts.useAdaptiveThreshold = true) :
    (∀ x ∈ adaptiveStage opts (r :: rs),
        max (r.similarity * (4/5)) opts.minSimilarity ≤ x.similarity)
    ∧ (∀ x ∈ r :: rs,
        max (r.similarity * (4/5)) opts.minSimilarity ≤ x.similarity →
          x ∈ adaptiveStage opts (r :: rs)) := by
  constructor
  · intro x hx
    simp only [adaptiveStage, h, if_true, List.mem_filter,
      decide_eq_true_eq] at hx
    exact hx.2
  · intro x hx hle
    simp only [adaptiveStage, h, if_true, List.mem_filter, decide_eq_true_eq]
    exact ⟨hx, hle⟩

/-- Witness for C1's amended theorem at Scenario D's sorted candidates. -/
theorem adaptiveStage_first_threshold_witness :
    (SearchOptions.useAdaptiveThreshold ⟨5, 1/2, 2, true⟩ = true)
    ∧ ((∀ x ∈ adaptiveStage ⟨5, 1/2, 2, true⟩
          [⟨9/10, []⟩, ⟨3/4, []⟩, ⟨7/10, []⟩, ⟨1/2, []⟩],
        max ((9:ℚ)/10 * (4/5)) ((1:ℚ)/2) ≤ x.similarity)
      ∧ (∀ x ∈ ([⟨9/10, []⟩, ⟨3/4, []⟩, ⟨7/10, []⟩, ⟨1/2, []⟩] :
            List SearchResult),
          max ((9:ℚ)/10 * (4/5)) ((1:ℚ)/2) ≤ x.similarity →
            x ∈ adaptiveStage ⟨5, 1/2, 2, true⟩
              [⟨9/10, []⟩, ⟨3/4, []⟩, ⟨7/10, []⟩, ⟨1/2, []⟩])) :=
  ⟨rfl, adaptiveStage_first_threshold ⟨5, 1/2, 2, true⟩ ⟨9/10, []⟩
    [⟨3/4, []⟩, ⟨7/10, []⟩, ⟨1/2, []⟩] rfl⟩

/-- Counterexample to C2: splitting `"ab cdefghij klmnopqrst"` with
`size = 5` (chosen separator `" "`), the final part `"klmnopqrst"` (length
10 > 5) is reached while the running segment is empty, so it is emitted
whole without recursion — even though recursing on it would have produced
`["klmno", "pqrst"]`. The split phase thus emits an unrecursed part longer
than `size`. -/
theorem splitText_oversized_part_counterexample :
    RecursiveChunking.splitText DEFAULT_SEPARATORS 5
        (str "ab cdefghij klmnopqrst")
      = [str "ab ", str "cdefghij ", str "klmnopqrst"]
    ∧ 5 < (str "klmnopqrst").length
    ∧ RecursiveChunking.splitText DEFAULT_SEPARATORS 5 (str "klmnopqrst")
      = [str "klmno", str "pqrst"] := by
  refine ⟨by decide, by decide, by decide⟩

/-- C2 as amended: in the splitting loop, a separator-delimited part (with
its separator re-appended) longer than `size` is recursively split with the
full hierarchy only when it is reached while the running segment is
non-empty (first equation); a part reached while the running segment is
empty becomes the new running segment with no recursive call, even when it
is longer than `size` (second equation), so the split phase can emit a
single unrecursed part longer than `size`. -/
theorem splitLoop_recursion_condition (seps : List (List Char))
    (fuel size : Nat) (p cur : List Char) (rest splits : List (List Char))
    (hcur : cur ≠ []) (hfull : size < cur.length + p.length)
    (hbig : size < p.length) :
    splitLoop (splitTextF seps fuel size) size (p :: rest) splits cur
        = splitLoop (splitTextF seps fuel size) size rest
            ((splits ++ [cur]) ++ splitTextF seps fuel size p) []
    ∧ splitLoop (splitTextF seps fuel size) size (p :: rest) splits []
        = splitLoop (splitTextF seps fuel size) size rest splits p := by
  have h1 : ¬ cur.length = 0 := by simpa using hcur
  have h2 : ¬ (cur.length + p.length ≤ size) := by omega
  have h3 : 0 < cur.length := by omega
  constructor
  · simp [splitLoop, h1, h2, h3, hbig]
  · simp [splitLoop]

/-- Witness for C2's amended theorem at the counterexample's oversized
part. -/
theorem splitLoop_recursion_condition_witness :
    (str "q" ≠ []) ∧ (5 < (str "q").length + (str "klmnopqrst").length)
    ∧ (5 < (str "klmnopqrst").length)
    ∧ (splitLoop (splitTextF DEFAULT_SEPARATORS 10 5) 5
          [str "klmnopqrst"] [] (str "q")
        = splitLoop (splitTextF DEFAULT_SEPARATORS 10 5) 5 []
            (([] ++ [str "q"]) ++ splitTextF DEFAULT_SEPARATORS 10 5
              (str "klmnopqrst")) []
      ∧ splitLoop (splitTextF DEFAULT_SEPARATORS 10 5) 5
          [str "klmnopqrst"] [] []
        = splitLoop (splitTextF DEFAULT_SEPARATORS 10 5) 5 [] []
            (str "klmnopqrst")) :=
  ⟨by decide, by decide, by decide,
    splitLoop_recursion_condition DEFAULT_SEPARATORS 10 5
      (str "klmnopqrst") (str "q") [] [] (by decide) (by decide) (by decide)⟩

theorem window_take (size s : Nat) (text : List Char) :
    (text.drop s).take (min (s + size) text.length - s)
      = (text.drop s).take size := by
  rcases le_or_lt text.length (s + size) with h | h
  · rw [min_eq_right h]
    rcases le_or_lt text.length s with hs | hs
    · rw [List.drop_eq_nil_of_le hs]
      simp
    · rw [List.take_of_length_le (by simp [List.length_drop]),
        List.take_of_length_le (by simp [List.length_drop]; omega)]
  · rw [min_eq_left h.le, Nat.add_sub_cancel_left]

theorem windowLoop_get? (size step : Nat) (text : List Char) (hstep : 0 < step) :
    ∀ (fuel start : Nat), text.length ≤ start + fuel * step →
      ∀ i, (windowLoop size step text fuel start).get? i
        = if start + i * step < text.length
          then some ((text.drop (start + i * step)).take size)
          else none := by
  intro fuel
  induction fuel with
  | zero =>
    intro start hle i
    simp only [Nat.zero_mul, Nat.add_zero] at hle
    rw [if_neg (by omega)]
    simp [windowLoop]
  | succ fuel ih =>
    intro start hle i
    have hmul : (fuel + 1) * step = fuel * step + step := Nat.succ_mul fuel step
    simp only [windowLoop]
    by_cases hs : start < text.length
    · rw [if_pos hs]
      cases i with
      | zero =>
        rw [List.get?_cons_zero, window_take, if_pos (by simpa using hs)]
        simp
      | succ i =>
        rw [List.get?_cons_succ, ih (start + step) (by omega) i]
        have harith : start + step + i * step = start + (i + 1) * step := by
          rw [Nat.succ_mul]; ring
        rw [harith]
    · rw [if_neg hs, if_neg (by omega)]
      simp

theorem mapIdxFrom_map_content (g : Nat → List Char → Chunk)
    (hg : ∀ i a, (g i a).content = a) :
    ∀ (l : List (List Char)) (i : Nat), (mapIdxFrom g i l).map Chunk.content = l
  | [], _ => rfl
  | a :: as, i => by
    simp [mapIdxFrom, hg, mapIdxFrom_map_content g hg as (i + 1)]

theorem mem_mapIdxFrom (f : Nat → α → β) :
    ∀ (l : List α) (i : Nat) (x : β), x ∈ mapIdxFrom f i l →
      ∃ j a, l.get? j = some a ∧ x = f (i + j) a
  | [], _, x, hx => by simp [mapIdxFrom] at hx
  | a :: as, i, x, hx => by
    simp only [mapIdxFrom, List.mem_cons] at hx
    rcases hx with rfl | hx
    · exact ⟨0, a, by simp, by simp⟩
    · obtain ⟨j, b, hj, rfl⟩ := mem_mapIdxFrom f as (i + 1) x hx
      refine ⟨j + 1, b, by simpa using hj, ?_⟩
      have : i + 1 + j = i + (j + 1) := by omega
      rw [this]

/-- C3: `FixedSizeChunking.chunk` emits exactly the windows
`text[start, start+size)` (clipped to the text length) for
`start = 0, step, 2*step, ...` with `step = size - overlap`, stopping once
`start >= len(text)`; and on the 16-character Scenario A text with
`size = 10, overlap = 2` it yields exactly `"0123456789"` and `"89012345"`. -/
theorem fixedChunk_window_characterization (size overlap : Nat)
    (text : List Char) (h : overlap < size) (i : Nat) :
    ((FixedSizeChunking.chunk size overlap text).map Chunk.content).get? i
        = (if i * (size - overlap) < text.length
           then some ((text.drop (i * (size - overlap))).take size) else none)
    ∧ (FixedSizeChunking.chunk 10 2 (str "0123456789012345")).map Chunk.content
        = [str "0123456789", str "89012345"] := by
  have hstep : 0 < size - overlap := by omega
  refine ⟨?_, by decide⟩
  by_cases h0 : text.length = 0
  · simp only [FixedSizeChunking.chunk, if_pos h0]
    rw [if_neg (by omega)]
    simp
  · simp only [FixedSizeChunking.chunk, if_neg h0]
    rw [mapIdxFrom_map_content _ (fun _ _ => rfl)]
    have hfuel : text.length ≤ 0 + text.length * (size - overlap) := by
      have h1 : text.length * 1 ≤ text.length * (size - overlap) :=
        Nat.mul_le_mul_left text.length hstep
      have h2 : text.length * 1 = text.length := Nat.mul_one _
      omega
    have hw := windowLoop_get? size (size - overlap) text hstep
      text.length 0 hfuel i
    simpa [FixedSizeChunking.chunkContents] using hw

/-- Witness for C3 at Scenario A, window index 1. -/
theorem fixedChunk_window_characterization_witness :
    (2 < 10)
    ∧ (((FixedSizeChunking.chunk 10 2 (str "0123456789012345")).map
          Chunk.content).get? 1
        = (if 1 * (10 - 2) < (str "0123456789012345").length
           then some (((str "0123456789012345").drop (1 * (10 - 2))).take 10)
           else none)
      ∧ (FixedSizeChunking.chunk 10 2 (str "0123456789012345")).map Chunk.content
        = [str "0123456789", str "89012345"]) :=
  ⟨by decide,
    fixedChunk_window_characterization 10 2 (str "0123456789012345")
      (by decide) 1⟩

/-- C9: every chunk produced by `FixedSizeChunking.chunk` has offsets
consistent with its content: `startChar = index * (size - overlap)`,
`endChar = startChar + len(content)`, the content is the corresponding
window of the source text (so `text.slice(startChar, endChar)` reproduces
it), and `len(content) <= size`. -/
theorem fixedChunk_offsets_consistent (size overlap : Nat) (text : List Char)
    (h : overlap < size) (c : Chunk)
    (hc : c ∈ FixedSizeChunking.chunk size overlap text) :
    c.startChar = some (c.chunkIndex * (size - overlap))
    ∧ c.endChar = some (c.chunkIndex * (size - overlap) + c.content.length)
    ∧ c.content = (text.drop (c.chunkIndex * (size - overlap))).take size
    ∧ c.content = (text.drop (c.chunkIndex * (size - overlap))).take
        c.content.length
    ∧ c.content.length ≤ size := by
  have hstep : 0 < size - overlap := by omega
  by_cases h0 : text.length = 0
  · simp only [FixedSizeChunking.chunk, if_pos h0] at hc
    simp at hc
  · simp only [FixedSizeChunking.chunk, if_neg h0] at hc
    obtain ⟨j, a, hj, rfl⟩ := mem_mapIdxFrom _ _ _ _ hc
    have hfuel : text.length ≤ 0 + text.length * (size - overlap) := by
      have h1 : text.length * 1 ≤ text.length * (size - overlap) :=
        Nat.mul_le_mul_left text.length hstep
      have h2 : text.length * 1 = text.length := Nat.mul_one _
      omega
    have hw := windowLoop_get? size (size - overlap) text hstep
      text.length 0 hfuel j
    rw [FixedSizeChunking.chunkContents] at hj
    rw [hw] at hj
    simp only [Nat.zero_add] at hj
    by_cases hcond : j * (size - overlap) < text.length
    · rw [if_pos hcond] at hj
      have ha : a = (text.drop (j * (size - overlap))).take size := by
        injection hj with hj'
        exact hj'.symm
      subst ha
      have hlen : ((text.drop (j * (size - overlap))).take size).length
          = min size (text.length - j * (size - overlap)) := by
        simp [List.length_take, List.length_drop]
      have hlen1 : ((text.drop (j * (size - overlap))).take size).length
          ≤ size := by
        rw [hlen]; exact Nat.min_le_left _ _
      have hlen2 : ((text.drop (j * (size - overlap))).take size).length
          ≤ text.length - j * (size - overlap) := by
        rw [hlen]; exact Nat.min_le_right _ _
      refine ⟨by simp [createChunk], ?_, by simp [createChunk], ?_, ?_⟩
      · simp only [createChunk, Nat.zero_add]
        rw [Nat.min_eq_left (by omega)]
      · simp only [createChunk, Nat.zero_add]
        rw [List.take_eq_take]
        rw [List.length_take, List.length_drop, Nat.min_assoc, Nat.min_self]
      · simpa [createChunk] using hlen1
    · rw [if_neg hcond] at hj
      exact absurd hj (by simp)

/-- Witness for C9 at Scenario A's second chunk. -/
theorem fixedChunk_offsets_consistent_witness :
    (2 < 10)
    ∧ createChunk (str "89012345") 1 2 (some 8) (some 16)
        ∈ FixedSizeChunking.chunk 10 2 (str "0123456789012345")
    ∧ ((createChunk (str "89012345") 1 2 (some 8) (some 16)).startChar
        = some ((createChunk (str "89012345") 1 2 (some 8) (some 16)).chunkIndex
            * (10 - 2))
      ∧ (createChunk (str "89012345") 1 2 (some 8) (some 16)).endChar
        = some ((createChunk (str "89012345") 1 2 (some 8) (some 16)).chunkIndex
            * (10 - 2)
          + (createChunk (str "89012345") 1 2 (some 8) (some 16)).content.length)
      ∧ (createChunk (str "89012345") 1 2 (some 8) (some 16)).content
        = ((str "0123456789012345").drop
            ((createChunk (str "89012345") 1 2 (some 8) (some 16)).chunkIndex
              * (10 - 2))).take 10
      ∧ (createChunk (str "89012345") 1 2 (some 8) (some 16)).content
        = ((str "0123456789012345").drop
            ((createChunk (str "89012345") 1 2 (some 8) (some 16)).chunkIndex
              * (10 - 2))).take
            (createChunk (str "89012345") 1 2 (some 8) (some 16)).content.length
      ∧ (createChunk (str "89012345") 1 2 (some 8) (some 16)).content.length
          ≤ 10) :=
  ⟨by decide, by decide,
    fixedChunk_offsets_consistent 10 2 (str "0123456789012345") (by decide)
      (createChunk (str "89012345") 1 2 (some 8) (some 16)) (by decide)⟩
